import Mathlib

/-!
Verification of the trip-time engine of the IDMT-Curve application (`c2.py`).

The computational core consists of the IDMT trip-time formula
`trip_time_idmt`, its vectorized form `compute_curve_points_idmt`, the
definite-time evaluation (`compute_dt_curve` and the scalar expression
computing `tt3`), and the ranked trip-time summary (rows built by `make_row`,
sorted by `sorted(..., key=lambda r: (r["time_value"] == np.inf,
r["time_value"]))`, then ranks assigned to operating rows).

Modelling choices:
* Python floats are modelled as real numbers; the float power `**` is real
  exponentiation (`Real.rpow`, written `x ^ y` on reals).
* The `np.nan` sentinel returned for a non-operating relay is modelled as
  `none : Option ℝ`; `some t` is an operating result with trip time `t`.
* The `np.inf` sentinel stored in `time_value` for sorting is likewise
  modelled as `none`, ordered after every finite time by the sort key.
* Python's `sorted` is a stable sort; `List.mergeSort` is stable, and a
  stable sort with respect to a total preorder is unique, so `List.mergeSort`
  with the same key order is the same function.
-/

/-- The keys of `CURVE_CONSTANTS` (IEC 60255-151 curve families). -/
inductive IdmtKind
  | NI
  | VI
  | EI

/-- `CURVE_CONSTANTS[k]["A"]`. -/
def curveA : IdmtKind → ℝ
  | .NI => 0.14
  | .VI => 13.5
  | .EI => 80

/-- `CURVE_CONSTANTS[k]["B"]`. -/
def curveB : IdmtKind → ℝ
  | .NI => 0.02
  | .VI => 1
  | .EI => 2

/-- `trip_time_idmt(A, B, TMS, If, Ip)` from c2.py: `ratio = If / Ip`,
`denom = ratio**B - 1`, returns `np.nan` (here `none`) if `denom <= 0`,
else `(A * TMS) / denom`. -/
noncomputable def trip_time_idmt (A B TMS curr Ip : ℝ) : Option ℝ :=
  let ratio := curr / Ip
  let denom := ratio ^ B - 1
  if denom ≤ 0 then none else some ((A * TMS) / denom)

/-- `compute_curve_points_idmt(A, B, TMS, Ip, x_currents)` from c2.py:
`np.where(denom > 0, (A * TMS) / denom, np.nan)` computed elementwise over
the current sweep. -/
noncomputable def compute_curve_points_idmt (A B TMS Ip : ℝ)
    (x_currents : List ℝ) : List (Option ℝ) :=
  x_currents.map fun I =>
    let denom := (I / Ip) ^ B - 1
    if 0 < denom then some ((A * TMS) / denom) else none

/-- `compute_dt_curve(I, Ip, Td)` from c2.py: `np.where(I > Ip, Td, np.nan)`
elementwise. -/
noncomputable def compute_dt_curve (I : List ℝ) (Ip Td : ℝ) : List (Option ℝ) :=
  I.map fun i => if Ip < i then some Td else none

/-- The scalar definite-time evaluation of c2.py line 95:
`tt3 = Td3 if IF > Ip3 else np.nan`. -/
noncomputable def trip_time_dt (curr Ip Td : ℝ) : Option ℝ :=
  if Ip < curr then some Td else none

/-- One summary row as far as sorting and ranking observe it: the original
input position (`make_row` is called once per relay in input order) and the
`time_value` field, where `none` models the `np.inf` sentinel stored when the
trip time is NaN (non-operating). -/
structure Row where
  relay : ℕ
  time_value : Option ℝ

/-- The order underlying the sort key `(r["time_value"] == np.inf,
r["time_value"])`: lexicographic on (is-infinite, value), `none` playing
`np.inf`. -/
noncomputable def row_le (a b : Row) : Bool :=
  match a.time_value, b.time_value with
  | none, none => true
  | none, some _ => false
  | some _, none => true
  | some x, some y => decide (x ≤ y)

/-- The rows list built by the `make_row` calls: one row per relay, in input
order, carrying that relay's trip result. -/
def make_rows (tts : List (Option ℝ)) : List Row :=
  tts.enum.map fun p => ⟨p.1, p.2⟩

/-- `rows_sorted = sorted(rows, key=lambda r: (r["time_value"] == np.inf,
r["time_value"]))` (a stable sort on the key order `row_le`). -/
noncomputable def rows_sorted (rows : List Row) : List Row :=
  rows.mergeSort row_le

/-- The rank-assignment loop of c2.py lines 158-164: walking the sorted rows,
non-operating rows (`time_value == np.inf`) get the `"-"` marker (`none`),
operating rows get consecutive ranks starting from the accumulator. -/
def assign_ranks : List Row → ℕ → List (Row × Option ℕ)
  | [], _ => []
  | r :: rs, k =>
    match r.time_value with
    | none => (r, none) :: assign_ranks rs k
    | some _ => (r, some k) :: assign_ranks rs (k + 1)

/-- The whole ranked-summary pipeline of c2.py lines 134-164, abstracted over
the per-relay trip results: build rows in input order, stable-sort by the
key, assign ranks starting at 1. -/
noncomputable def rank_relays (tts : List (Option ℝ)) : List (Row × Option ℕ) :=
  assign_ranks (rows_sorted (make_rows tts)) 1

/-! Helper lemmas shared by the claim theorems. -/

theorem curveA_pos (k : IdmtKind) : 0 < curveA k := by
  cases k <;> norm_num [curveA]

theorem curveB_pos (k : IdmtKind) : 0 < curveB k := by
  cases k <;> norm_num [curveB]

theorem one_lt_rpow_of_one_lt {x b : ℝ} (hx : 1 < x) (hb : 0 < b) :
    1 < x ^ b :=
  (Real.one_lt_rpow_iff_of_pos (lt_trans one_pos hx)).mpr (Or.inl ⟨hx, hb⟩)

/-- Unfolding `trip_time_idmt` in the operating case. -/
theorem trip_time_idmt_of_denom_pos {A B TMS curr Ip : ℝ}
    (h : 0 < (curr / Ip) ^ B - 1) :
    trip_time_idmt A B TMS curr Ip =
      some ((A * TMS) / ((curr / Ip) ^ B - 1)) := by
  unfold trip_time_idmt
  rw [if_neg (not_le.mpr h)]

/-- Unfolding `trip_time_idmt` in the non-operating case. -/
theorem trip_time_idmt_of_denom_nonpos {A B TMS curr Ip : ℝ}
    (h : (curr / Ip) ^ B - 1 ≤ 0) :
    trip_time_idmt A B TMS curr Ip = none := by
  unfold trip_time_idmt
  rw [if_pos h]

/-- Above pickup the denominator is positive. -/
theorem denom_pos_of_above_pickup (k : IdmtKind) {curr Ip : ℝ}
    (hIp : 0 < Ip) (h : Ip < curr) : 0 < (curr / Ip) ^ curveB k - 1 :=
  sub_pos.mpr (one_lt_rpow_of_one_lt ((one_lt_div hIp).mpr h) (curveB_pos k))

/-- C1: for every inverse-kind setting and positive pickup and current,
`trip_time_idmt` computes `ratio = curr / Ip` and `denom = ratio ^ B - 1`;
if `denom ≤ 0` the result is the non-operating sentinel, otherwise the trip
time is exactly `(A * TMS) / denom`, with no clamping or rounding. -/
theorem c1_evaluateAt_inverse (k : IdmtKind) (TMS curr Ip : ℝ)
    (hIp : 0 < Ip) (hcurr : 0 < curr) :
    ((curr / Ip) ^ curveB k - 1 ≤ 0 →
        trip_time_idmt (curveA k) (curveB k) TMS curr Ip = none) ∧
      (0 < (curr / Ip) ^ curveB k - 1 →
        trip_time_idmt (curveA k) (curveB k) TMS curr Ip =
          some ((curveA k * TMS) / ((curr / Ip) ^ curveB k - 1))) :=
  ⟨fun h => trip_time_idmt_of_denom_nonpos h,
   fun h => trip_time_idmt_of_denom_pos h⟩

/-- Witness for C1 at the very-inverse curve, TMS = 1, current 2, pickup 1:
the denominator is `2 ^ 1 - 1 = 1 > 0` and the relay operates in
`13.5 * 1 / 1 = 13.5` seconds. -/
theorem c1_evaluateAt_inverse_witness :
    trip_time_idmt (curveA .VI) (curveB .VI) 1 2 1 = some 13.5 := by
  have hd : (0 : ℝ) < ((2 : ℝ) / 1) ^ curveB .VI - 1 := by
    rw [show curveB .VI = (1 : ℝ) from rfl, Real.rpow_one]
    norm_num
  rw [(c1_evaluateAt_inverse .VI 1 2 1 (by norm_num) (by norm_num)).2 hd]
  rw [show curveB .VI = (1 : ℝ) from rfl, show curveA .VI = (13.5 : ℝ) from rfl,
    Real.rpow_one]
  norm_num

/-- C2 counterexample: the claim says the engine fails fast with an
`InvalidArgument` error on `current <= 0` or `pickupCurrent <= 0` rather than
returning a `TripResult`. The code has no validation at all: at the invalid
input `current = -2 < 0`, `pickup = -1 < 0` (very-inverse constants,
TMS = 1) it silently applies the formula and returns the operating result
`some 13.5` — a `TripResult` with `operates = true`. -/
theorem c2_counterexample :
    (-2 : ℝ) ≤ 0 ∧ (-1 : ℝ) ≤ 0 ∧
      trip_time_idmt 13.5 1 1 (-2) (-1) = some 13.5 := by
  refine ⟨by norm_num, by norm_num, ?_⟩
  have hd : (0 : ℝ) < ((-2 : ℝ) / (-1)) ^ (1 : ℝ) - 1 := by
    rw [show (-2 : ℝ) / (-1) = 2 by norm_num, Real.rpow_one]
    norm_num
  rw [trip_time_idmt_of_denom_pos hd]
  rw [show (-2 : ℝ) / (-1) = 2 by norm_num, Real.rpow_one]
  norm_num

/-- C2 amended: `trip_time_idmt` performs no input validation and never
raises: for invalid magnitudes (current and pickup both negative, so each
violates its `> 0` precondition) whose ratio still exceeds 1, the formula is
applied as usual and an operating `TripResult` is returned. -/
theorem c2_no_validation (k : IdmtKind) (TMS curr Ip : ℝ)
    (hcurr : curr < 0) (hIp : Ip < 0) (h : 1 < curr / Ip) :
    trip_time_idmt (curveA k) (curveB k) TMS curr Ip =
      some ((curveA k * TMS) / ((curr / Ip) ^ curveB k - 1)) :=
  trip_time_idmt_of_denom_pos
    (sub_pos.mpr (one_lt_rpow_of_one_lt h (curveB_pos k)))

/-- Witness for the amended C2 at the very-inverse curve, TMS = 1,
current -2, pickup -1. -/
theorem c2_no_validation_witness :
    trip_time_idmt (curveA .VI) (curveB .VI) 1 (-2) (-1) = some 13.5 := by
  rw [c2_no_validation .VI 1 (-2) (-1) (by norm_num) (by norm_num)
    (by norm_num)]
  rw [show curveB .VI = (1 : ℝ) from rfl, show curveA .VI = (13.5 : ℝ) from rfl,
    Real.rpow_one]
  norm_num

/-- C4: definite-time evaluation with positive pickup, delay and current
operates, with trip time exactly the configured delay, precisely when the
current strictly exceeds the pickup (equality does not operate), and the
returned time does not depend on how far the current exceeds the pickup;
`compute_dt_curve` computes the same pointwise. -/
theorem c4_definite_time (curr Ip Td : ℝ) (hIp : 0 < Ip) (hTd : 0 < Td)
    (hcurr : 0 < curr) :
    (trip_time_dt curr Ip Td = some Td ↔ Ip < curr) ∧
      (¬ Ip < curr → trip_time_dt curr Ip Td = none) ∧
      (∀ c1 c2 : ℝ, Ip < c1 → Ip < c2 →
        trip_time_dt c1 Ip Td = trip_time_dt c2 Ip Td) ∧
      compute_dt_curve [curr] Ip Td = [trip_time_dt curr Ip Td] := by
  refine ⟨?_, ?_, ?_, rfl⟩
  · by_cases h : Ip < curr
    · simp [trip_time_dt, h]
    · simp [trip_time_dt, h]
  · intro h
    simp [trip_time_dt, h]
  · intro c1 c2 h1 h2
    simp [trip_time_dt, h1, h2]

/-- Witness for C4 at Definite-Time scenario pickup 2, delay 0.35,
current 2.1: operates with trip time exactly 0.35. -/
theorem c4_definite_time_witness :
    trip_time_dt 2.1 2 0.35 = some 0.35 :=
  (c4_definite_time 2.1 2 0.35 (by norm_num) (by norm_num)
    (by norm_num)).1.mpr (by norm_num)

/-- C5: for a fixed inverse kind with positive TMS and pickup, the trip time
is strictly decreasing in the current over currents above pickup: both
currents operate with the formula value, and the larger current's trip time
is strictly smaller. -/
theorem c5_strictly_decreasing (k : IdmtKind) (TMS Ip c1 c2 : ℝ)
    (hTMS : 0 < TMS) (hIp : 0 < Ip) (h1 : Ip < c1) (h12 : c1 < c2) :
    trip_time_idmt (curveA k) (curveB k) TMS c1 Ip =
        some ((curveA k * TMS) / ((c1 / Ip) ^ curveB k - 1)) ∧
      trip_time_idmt (curveA k) (curveB k) TMS c2 Ip =
        some ((curveA k * TMS) / ((c2 / Ip) ^ curveB k - 1)) ∧
      (curveA k * TMS) / ((c2 / Ip) ^ curveB k - 1) <
        (curveA k * TMS) / ((c1 / Ip) ^ curveB k - 1) := by
  have hd1 := denom_pos_of_above_pickup k hIp h1
  have hd2 := denom_pos_of_above_pickup k hIp (lt_trans h1 h12)
  have hr : c1 / Ip < c2 / Ip := (div_lt_div_iff_of_pos_right hIp).mpr h12
  have hpow : (c1 / Ip) ^ curveB k < (c2 / Ip) ^ curveB k :=
    Real.rpow_lt_rpow (le_of_lt (div_pos (lt_trans hIp h1) hIp)) hr
      (curveB_pos k)
  refine ⟨trip_time_idmt_of_denom_pos hd1, trip_time_idmt_of_denom_pos hd2, ?_⟩
  exact div_lt_div_of_pos_left (mul_pos (curveA_pos k) hTMS) hd1
    (by linarith)

/-- Witness for C5 at the very-inverse curve, TMS = 1, pickup 1,
currents 2 < 3. -/
theorem c5_strictly_decreasing_witness :
    trip_time_idmt (curveA .VI) (curveB .VI) 1 2 1 =
        some ((curveA .VI * 1) / (((2 : ℝ) / 1) ^ curveB .VI - 1)) ∧
      trip_time_idmt (curveA .VI) (curveB .VI) 1 3 1 =
        some ((curveA .VI * 1) / (((3 : ℝ) / 1) ^ curveB .VI - 1)) ∧
      (curveA .VI * 1) / (((3 : ℝ) / 1) ^ curveB .VI - 1) <
        (curveA .VI * 1) / (((2 : ℝ) / 1) ^ curveB .VI - 1) :=
  c5_strictly_decreasing .VI 1 1 2 3 (by norm_num) (by norm_num)
    (by norm_num) (by norm_num)

/-- C6: at any operating point, doubling the time multiplier exactly doubles
the trip time, all other inputs fixed. -/
theorem c6_tms_doubling (k : IdmtKind) (TMS curr Ip : ℝ)
    (hIp : 0 < Ip) (h : Ip < curr) :
    trip_time_idmt (curveA k) (curveB k) (2 * TMS) curr Ip =
      (trip_time_idmt (curveA k) (curveB k) TMS curr Ip).map
        (fun t => 2 * t) := by
  have hd := denom_pos_of_above_pickup k hIp h
  rw [trip_time_idmt_of_denom_pos hd, trip_time_idmt_of_denom_pos hd,
    Option.map_some']
  congr 1
  ring

/-- Witness for C6 at the very-inverse curve, TMS = 1 doubled to 2,
current 2, pickup 1. -/
theorem c6_tms_doubling_witness :
    trip_time_idmt (curveA .VI) (curveB .VI) (2 * 1) 2 1 =
      (trip_time_idmt (curveA .VI) (curveB .VI) 1 2 1).map
        (fun t => 2 * t) :=
  c6_tms_doubling .VI 1 2 1 (by norm_num) (by norm_num)

/-- C7: the vectorized sweep `compute_curve_points_idmt` returns one sample
per input current, in input order, and each sample equals the single-point
`trip_time_idmt` at that current: the two implementations are externally
equivalent. -/
theorem c7_sampleCurve_refines_evaluateAt (A B TMS Ip : ℝ) (xs : List ℝ) :
    (compute_curve_points_idmt A B TMS Ip xs).length = xs.length ∧
      compute_curve_points_idmt A B TMS Ip xs =
        xs.map fun curr => trip_time_idmt A B TMS curr Ip := by
  have hmap : compute_curve_points_idmt A B TMS Ip xs =
      xs.map fun curr => trip_time_idmt A B TMS curr Ip := by
    unfold compute_curve_points_idmt trip_time_idmt
    refine List.map_congr_left ?_
    intro I _
    by_cases h : (I / Ip) ^ B - 1 ≤ 0
    · rw [if_neg (not_lt.mpr h), if_pos h]
    · rw [if_pos (not_le.mp h), if_neg h]
  exact ⟨by rw [hmap, List.length_map], hmap⟩

/-- C8: above pickup with positive TMS, the relay operates and the returned
trip time is strictly positive (and, being a real number, finite). -/
theorem c8_tripTime_positive (k : IdmtKind) (TMS curr Ip : ℝ)
    (hTMS : 0 < TMS) (hIp : 0 < Ip) (h : Ip < curr) :
    trip_time_idmt (curveA k) (curveB k) TMS curr Ip =
        some ((curveA k * TMS) / ((curr / Ip) ^ curveB k - 1)) ∧
      0 < (curveA k * TMS) / ((curr / Ip) ^ curveB k - 1) := by
  have hd := denom_pos_of_above_pickup k hIp h
  exact ⟨trip_time_idmt_of_denom_pos hd,
    div_pos (mul_pos (curveA_pos k) hTMS) hd⟩

/-- Witness for C8 at the extremely-inverse curve, TMS = 1, current 2,
pickup 1. -/
theorem c8_tripTime_positive_witness :
    trip_time_idmt (curveA .EI) (curveB .EI) 1 2 1 =
        some ((curveA .EI * 1) / (((2 : ℝ) / 1) ^ curveB .EI - 1)) ∧
      0 < (curveA .EI * 1) / (((2 : ℝ) / 1) ^ curveB .EI - 1) :=
  c8_tripTime_positive .EI 1 2 1 (by norm_num) (by norm_num) (by norm_num)

/-- C9: whether a relay operates depends only on the curve kind, the current
and the pickup: varying the time multiplier (inverse formula) or the definite
delay (definite-time) never changes the `operates` flag. -/
theorem c9_operates_noninterference (A B TMS1 TMS2 curr Ip Td1 Td2 : ℝ) :
    (trip_time_idmt A B TMS1 curr Ip).isSome =
        (trip_time_idmt A B TMS2 curr Ip).isSome ∧
      (trip_time_dt curr Ip Td1).isSome =
        (trip_time_dt curr Ip Td2).isSome := by
  constructor
  · unfold trip_time_idmt
    by_cases h : (curr / Ip) ^ B - 1 ≤ 0 <;> simp [h]
  · unfold trip_time_dt
    by_cases h : Ip < curr <;> simp [h]

/-- C10: at a fixed current and inverse kind with positive TMS, the trip time
is strictly increasing in the pickup current over pickups in (0, current):
a higher pickup trips strictly later. -/
theorem c10_pickup_monotone (k : IdmtKind) (TMS curr Ip1 Ip2 : ℝ)
    (hTMS : 0 < TMS) (h0 : 0 < Ip1) (h12 : Ip1 < Ip2) (h2 : Ip2 < curr) :
    trip_time_idmt (curveA k) (curveB k) TMS curr Ip1 =
        some ((curveA k * TMS) / ((curr / Ip1) ^ curveB k - 1)) ∧
      trip_time_idmt (curveA k) (curveB k) TMS curr Ip2 =
        some ((curveA k * TMS) / ((curr / Ip2) ^ curveB k - 1)) ∧
      (curveA k * TMS) / ((curr / Ip1) ^ curveB k - 1) <
        (curveA k * TMS) / ((curr / Ip2) ^ curveB k - 1) := by
  have h02 : 0 < Ip2 := lt_trans h0 h12
  have hcurr : 0 < curr := lt_trans h02 h2
  have hd1 := denom_pos_of_above_pickup k h0 (lt_trans h12 h2)
  have hd2 := denom_pos_of_above_pickup k h02 h2
  have hr : curr / Ip2 < curr / Ip1 := div_lt_div_of_pos_left hcurr h0 h12
  have hpow : (curr / Ip2) ^ curveB k < (curr / Ip1) ^ curveB k :=
    Real.rpow_lt_rpow (le_of_lt (div_pos hcurr h02)) hr (curveB_pos k)
  refine ⟨trip_time_idmt_of_denom_pos hd1, trip_time_idmt_of_denom_pos hd2, ?_⟩
  exact div_lt_div_of_pos_left (mul_pos (curveA_pos k) hTMS) hd2
    (by linarith)

/-- Witness for C10 at the very-inverse curve, TMS = 1, current 4,
pickups 1 < 2. -/
theorem c10_pickup_monotone_witness :
    trip_time_idmt (curveA .VI) (curveB .VI) 1 4 1 =
        some ((curveA .VI * 1) / (((4 : ℝ) / 1) ^ curveB .VI - 1)) ∧
      trip_time_idmt (curveA .VI) (curveB .VI) 1 4 2 =
        some ((curveA .VI * 1) / (((4 : ℝ) / 2) ^ curveB .VI - 1)) ∧
      (curveA .VI * 1) / (((4 : ℝ) / 1) ^ curveB .VI - 1) <
        (curveA .VI * 1) / (((4 : ℝ) / 2) ^ curveB .VI - 1) :=
  c10_pickup_monotone .VI 1 4 1 2 (by norm_num) (by norm_num) (by norm_num)
    (by norm_num)

/-! Helper lemmas for the ranked-summary claim. -/

/-- `row_le` is transitive. -/
theorem row_le_trans (a b c : Row) (hab : row_le a b) (hbc : row_le b c) :
    row_le a c := by
  obtain ⟨i, _ | x⟩ := a
  all_goals obtain ⟨j, _ | y⟩ := b
  all_goals obtain ⟨l, _ | z⟩ := c
  all_goals simp only [row_le, decide_eq_true_eq, Bool.false_eq_true]
    at hab hbc ⊢
  exact le_trans hab hbc

/-- `row_le` is total. -/
theorem row_le_total (a b : Row) : row_le a b || row_le b a := by
  obtain ⟨i, _ | x⟩ := a
  all_goals obtain ⟨j, _ | y⟩ := b
  all_goals simp only [row_le, Bool.or_eq_true, decide_eq_true_eq]
  · exact Or.inl trivial
  · exact Or.inr trivial
  · exact Or.inl trivial
  · exact le_total x y

/-- What being `row_le`-ordered says about the underlying trip results: a
non-operating row is never followed by an operating one, and operating rows
appear in nondecreasing trip-time order. -/
theorem row_le_spec (a b : Row) (h : row_le a b) :
    (a.time_value = none → b.time_value = none) ∧
      ∀ x y, a.time_value = some x → b.time_value = some y → x ≤ y := by
  obtain ⟨i, _ | x⟩ := a
  all_goals obtain ⟨j, _ | y⟩ := b
  all_goals simp_all [row_le]

/-- Rows with equal `time_value` are `row_le`-related (so the stable sort
keeps them in input order). -/
theorem row_le_of_eq {a b : Row} (h : a.time_value = b.time_value) :
    row_le a b := by
  obtain ⟨i, _ | x⟩ := a
  all_goals obtain ⟨j, _ | y⟩ := b
  all_goals simp_all [row_le]

/-- Rank assignment only decorates the rows: dropping the ranks gives back
the sorted rows unchanged. -/
theorem assign_ranks_map_fst (l : List Row) (k : ℕ) :
    (assign_ranks l k).map Prod.fst = l := by
  induction l generalizing k with
  | nil => rfl
  | cons r rs ih =>
    cases h : r.time_value <;> simp [assign_ranks, h, ih]

/-- The ranks handed out by the assignment loop, in output order, are exactly
the consecutive integers starting at the accumulator, one per operating
row. -/
theorem assign_ranks_filterMap (l : List Row) (k : ℕ) :
    (assign_ranks l k).filterMap Prod.snd =
      List.range' k (l.countP fun r => r.time_value.isSome) := by
  induction l generalizing k with
  | nil => rfl
  | cons r rs ih =>
    cases h : r.time_value with
    | none => simp [assign_ranks, h, List.countP_cons, ih]
    | some x => simp [assign_ranks, h, List.countP_cons, ih, List.range'_succ]

/-- A row receives the "-" marker instead of a rank exactly when it does not
operate. -/
theorem assign_ranks_none_iff (l : List Row) (k : ℕ) :
    ∀ p ∈ assign_ranks l k, p.2 = none ↔ p.1.time_value = none := by
  induction l generalizing k with
  | nil => intro p hp; cases hp
  | cons r rs ih =>
    intro p hp
    cases h : r.time_value with
    | none =>
      simp only [assign_ranks, h, List.mem_cons] at hp
      rcases hp with hp | hp
      · simp [hp, h]
      · exact ih _ _ hp
    | some x =>
      simp only [assign_ranks, h, List.mem_cons] at hp
      rcases hp with hp | hp
      · simp [hp, h]
      · exact ih _ _ hp

/-- Enumerating the trip results does not change how many operate. -/
theorem countP_isSome_enumFrom (l : List (Option ℝ)) (n : ℕ) :
    ((l.enumFrom n).countP fun p => p.2.isSome) = l.countP Option.isSome := by
  induction l generalizing n with
  | nil => rfl
  | cons a l ih => simp [List.countP_cons, ih]

/-- C3: the ranked summary pipeline: the output has one entry per input
relay; every operating row precedes every non-operating row and operating
rows appear in ascending trip-time order; rows with equal trip results (ties,
and all non-operating rows) keep their original relative input order; the
ranks read off in output order are exactly 1, 2, ... over the operating rows;
and a row gets the "-" marker instead of a rank exactly when it does not
operate. -/
theorem c3_rank_relays (tts : List (Option ℝ)) :
    (rank_relays tts).length = tts.length ∧
      ((rank_relays tts).map Prod.fst).Pairwise
        (fun a b => (a.time_value = none → b.time_value = none) ∧
          ∀ x y, a.time_value = some x → b.time_value = some y → x ≤ y) ∧
      (∀ a b : Row, [a, b].Sublist (make_rows tts) →
        a.time_value = b.time_value →
        [a, b].Sublist ((rank_relays tts).map Prod.fst)) ∧
      (rank_relays tts).filterMap Prod.snd =
        List.range' 1 (tts.countP Option.isSome) ∧
      ∀ p ∈ rank_relays tts, p.2 = none ↔ p.1.time_value = none := by
  have hfst : (rank_relays tts).map Prod.fst = rows_sorted (make_rows tts) :=
    assign_ranks_map_fst _ _
  refine ⟨?_, ?_, ?_, ?_, ?_⟩
  · have h1 : (rank_relays tts).length =
        ((rank_relays tts).map Prod.fst).length := (List.length_map _ _).symm
    rw [h1, hfst, rows_sorted, List.length_mergeSort, make_rows,
      List.length_map]
    exact List.enum_length
  · rw [hfst, rows_sorted]
    exact (List.sorted_mergeSort row_le_trans row_le_total
      (make_rows tts)).imp (fun h => row_le_spec _ _ h)
  · intro a b hab heq
    rw [hfst, rows_sorted]
    exact List.pair_sublist_mergeSort row_le_trans row_le_total
      (row_le_of_eq heq) hab
  · rw [rank_relays, assign_ranks_filterMap]
    congr 1
    rw [rows_sorted,
      (List.mergeSort_perm (make_rows tts) row_le).countP_eq, make_rows,
      List.countP_map]
    exact countP_isSome_enumFrom tts 0
  · exact assign_ranks_none_iff _ _
